import Mathlib

/-!
Verification development for the `pg` package (x-ethr/pg).

The package has two components:
* a DSN builder `DSN()` (src/connection.go and src/unnamed/part_002) that
  assembles a `postgresql://host?query` connection string from environment
  variables, applying defaults and omitting blank parameters, and
* a process-wide pool singleton `Connection()` plus a cleanup helper
  `Disconnect()`.

Environments are modelled as total functions `String → String`, matching
Go's `os.Getenv`, which returns `""` for unset variables.  The host CPU
count (`runtime.NumCPU()`, read at call time) is an explicit parameter.
Strings are Lean strings (valid Unicode); byte-level operations
(`url.QueryEscape`, sorting in `url.Values.Encode`) go through an explicit
UTF-8 encoder.
-/

set_option maxRecDepth 40000

namespace Pg

/-- Character class of Go's `unicode.IsSpace`, used by `strings.TrimSpace`:
Latin-1 white space (TAB, LF, VT, FF, CR, SP, NEL, NBSP) together with the
Unicode White_Space code points above Latin-1. -/
def goIsSpace (c : Char) : Bool :=
  c.toNat == 9 || c.toNat == 10 || c.toNat == 11 || c.toNat == 12 ||
  c.toNat == 13 || c.toNat == 32 || c.toNat == 133 || c.toNat == 160 ||
  c.toNat == 5760 || (decide (8192 ≤ c.toNat) && decide (c.toNat ≤ 8202)) ||
  c.toNat == 8232 || c.toNat == 8233 || c.toNat == 8239 ||
  c.toNat == 8287 || c.toNat == 12288

/-- Go's `strings.TrimSpace`: drop white space from both ends of a string. -/
def goTrimSpace (s : String) : String :=
  String.mk (((s.data.dropWhile goIsSpace).reverse.dropWhile goIsSpace).reverse)

/-- A string is blank when every character is white space (equivalently,
`strings.TrimSpace` maps it to the empty string; the empty string is blank). -/
def goBlank (s : String) : Bool := s.data.all goIsSpace

/-- Decimal digit character, for 0 ≤ n ≤ 9. -/
def digitChar (n : Nat) : Char := Char.ofNat (48 + n)

/-- Decimal digit list of a natural number, most significant digit first;
structural recursion on a fuel argument that always suffices (the number of
digits is at most the number itself plus one). -/
def natToDigitsAux : Nat → Nat → List Char
  | 0, _ => []
  | fuel + 1, n =>
    if n < 10 then [digitChar n]
    else natToDigitsAux fuel (n / 10) ++ [digitChar (n % 10)]

/-- Decimal digit list of a natural number. -/
def natToDigits (n : Nat) : List Char := natToDigitsAux (n + 1) n

/-- Go's `strconv.Itoa` restricted to naturals: decimal rendering. -/
def itoa (n : Nat) : String := String.mk (natToDigits n)

/-- UTF-8 encoding of a single code point (given as a natural number) as a
list of byte values.  Matches Go's string representation, which is UTF-8. -/
def utf8EncodeCharNat (n : Nat) : List Nat :=
  if n < 128 then [n]
  else if n < 2048 then [192 + n / 64, 128 + n % 64]
  else if n < 65536 then [224 + n / 4096, 128 + n / 64 % 64, 128 + n % 64]
  else [240 + n / 262144, 128 + n / 4096 % 64, 128 + n / 64 % 64, 128 + n % 64]

/-- Byte sequence of a string under UTF-8 (Go strings are byte sequences;
for valid Unicode they are the UTF-8 encoding of the code points). -/
def utf8Bytes (s : String) : List Nat :=
  s.data.flatMap (fun c => utf8EncodeCharNat c.toNat)

/-- Bytes net/url never escapes in any mode (RFC 3986 unreserved):
ASCII letters, digits, and `-` `_` `.` `~`. -/
def unreservedByte (b : Nat) : Bool :=
  (decide (65 ≤ b) && decide (b ≤ 90)) || (decide (97 ≤ b) && decide (b ≤ 122)) ||
  (decide (48 ≤ b) && decide (b ≤ 57)) || b == 45 || b == 95 || b == 46 || b == 126

/-- Extra bytes net/url leaves unescaped in host position (mode `encodeHost`):
the sub-delims and `:` `[` `]` `<` `>` `"`. -/
def hostExtraByte (b : Nat) : Bool :=
  b == 33 || b == 36 || b == 38 || b == 39 || b == 40 || b == 41 || b == 42 ||
  b == 43 || b == 44 || b == 59 || b == 61 || b == 58 || b == 91 || b == 93 ||
  b == 60 || b == 62 || b == 34

/-- Upper-case hexadecimal digit character for 0 ≤ n ≤ 15 (net/url's
`upperhex` table). -/
def upperHexDigit (n : Nat) : Char := Char.ofNat (if n < 10 then 48 + n else 55 + n)

/-- Percent-encoding of one byte, upper-case hex, as in net/url. -/
def pctEncode (b : Nat) : List Char := ['%', upperHexDigit (b / 16), upperHexDigit (b % 16)]

/-- One escaped byte of `url.QueryEscape` (mode `encodeQueryComponent`):
unreserved bytes pass through, space becomes `+`, all else is
percent-encoded. -/
def queryEscapeByte (b : Nat) : List Char :=
  if unreservedByte b then [Char.ofNat b]
  else if b == 32 then ['+']
  else pctEncode b

/-- Go's `url.QueryEscape` of a string, as a character list: escape the
UTF-8 bytes one by one. -/
def queryEscape (s : String) : List Char := (utf8Bytes s).flatMap queryEscapeByte

/-- One escaped byte of host escaping (`escape(host, encodeHost)` inside
`URL.String()`). -/
def hostEscapeByte (b : Nat) : List Char :=
  if unreservedByte b || hostExtraByte b then [Char.ofNat b] else pctEncode b

/-- Host component escaping applied by `URL.String()`. -/
def hostEscape (s : String) : List Char := (utf8Bytes s).flatMap hostEscapeByte

/-- Lexicographic byte order on byte lists: the order `sort.Strings` uses
inside `url.Values.Encode` (Go string comparison is byte-wise). -/
def bytesLe : List Nat → List Nat → Bool
  | [], _ => true
  | _ :: _, [] => false
  | a :: as, b :: bs => if a < b then true else if b < a then false else bytesLe as bs

/-- Key comparison of `url.Values.Encode`: byte-wise on the UTF-8 bytes. -/
def keyLe (s t : String) : Bool := bytesLe (utf8Bytes s) (utf8Bytes t)

/-- Query pairs: one key together with its (single) value, the shape
`url.Values` takes in `DSN()` where every key is added exactly once. -/
abbrev QP := String × String

/-- Insert a pair into a key-sorted list, keeping it sorted. -/
def insertPair (p : QP) : List QP → List QP
  | [] => [p]
  | q :: qs => if keyLe p.1 q.1 then p :: q :: qs else q :: insertPair p qs

/-- Sort a pair list by key, the order produced by `url.Values.Encode`
(which iterates the map keys in `sort.Strings` order). -/
def sortPairs : List QP → List QP
  | [] => []
  | p :: ps => insertPair p (sortPairs ps)

/-- Serialized form of one pair inside `url.Values.Encode`: escaped key,
then `=`, then escaped value. -/
def encodePair (p : QP) : List Char := queryEscape p.1 ++ '=' :: queryEscape p.2

/-- Join pieces with `&` separators, as `url.Values.Encode` does. -/
def joinAmp : List (List Char) → List Char
  | [] => []
  | [x] => x
  | x :: y :: rest => x ++ '&' :: joinAmp (y :: rest)

/-- Go's `url.Values.Encode` for single-valued keys: sort the keys
byte-wise, escape key and value, join with `&`. -/
def valuesEncode (l : List QP) : List Char := joinAmp ((sortPairs l).map encodePair)

/-- Split a raw query on `&`, as the loop of `url.ParseQuery` does via
`strings.Cut(query, "&")`. -/
def splitAmp : List Char → List (List Char)
  | [] => [[]]
  | c :: rest =>
    match splitAmp rest with
    | [] => [[]]
    | p :: ps => if c = '&' then [] :: p :: ps else (c :: p) :: ps

/-- Split a segment at the first `=` (`strings.Cut(key, "=")`); when no `=`
occurs the value part is empty. -/
def cutEq : List Char → List Char × List Char
  | [] => ([], [])
  | c :: rest => if c = '=' then ([], rest) else ((c :: (cutEq rest).1), (cutEq rest).2)

/-- Hexadecimal value of a digit character, as `url.unescape` accepts it. -/
def hexVal (c : Char) : Option Nat :=
  if 48 ≤ c.toNat && c.toNat ≤ 57 then some (c.toNat - 48)
  else if 65 ≤ c.toNat && c.toNat ≤ 70 then some (c.toNat - 55)
  else if 97 ≤ c.toNat && c.toNat ≤ 102 then some (c.toNat - 87)
  else none

/-- Go's `url.QueryUnescape` on a character list, producing the byte string
it denotes: `%XX` decodes to a byte, `+` to space, any other character
contributes its UTF-8 bytes.  Malformed percent escapes fail. -/
def unescapeQ : List Char → Option (List Nat)
  | [] => some []
  | c :: rest =>
    if c = '%' then
      match rest with
      | h :: l :: rest2 =>
        match hexVal h, hexVal l, unescapeQ rest2 with
        | some hv, some lv, some bs => some ((16 * hv + lv) :: bs)
        | _, _, _ => none
      | _ => none
    else if c = '+' then
      match unescapeQ rest with
      | some bs => some (32 :: bs)
      | none => none
    else
      match unescapeQ rest with
      | some bs => some (utf8EncodeCharNat c.toNat ++ bs)
      | none => none

/-- Parse one `key=value` segment of a query: cut at the first `=` and
unescape both sides, failing if either unescape fails. -/
def parseSegment (seg : List Char) : Option (List Nat × List Nat) :=
  match unescapeQ (cutEq seg).1, unescapeQ (cutEq seg).2 with
  | some k, some v => some (k, v)
  | _, _ => none

/-- Go's `url.ParseQuery` as a pair list (byte-string keys and values):
split on `&`, skip empty segments and segments containing `;`, cut each at
the first `=`, unescape; segments whose unescape fails are skipped. -/
def parseQuery (raw : List Char) : List (List Nat × List Nat) :=
  (splitAmp raw).filterMap
    (fun seg => if seg.isEmpty || seg.contains ';' then none else parseSegment seg)

/-- Process environment as read by `os.Getenv`: unset names read as `""`
(Go does not distinguish unset from empty here). -/
def Env : Type := String → String

/-- Host resolution in `DSN()`: `PGHOST`, defaulting to "localhost" when
empty. -/
def dsnHost (env : Env) : String :=
  if env "PGHOST" = "" then "localhost" else env "PGHOST"

/-- Port resolution: `PGPORT`, defaulting to "5432" when empty. -/
def dsnPort (env : Env) : String :=
  if env "PGPORT" = "" then "5432" else env "PGPORT"

/-- Connect-timeout resolution: `PGCONNECT_TIMEOUT`, defaulting to "10". -/
def dsnTimeout (env : Env) : String :=
  if env "PGCONNECT_TIMEOUT" = "" then "10" else env "PGCONNECT_TIMEOUT"

/-- Max-pool-size resolution: `PGPOOLMAXCONNECTIONS`; when empty the code
sets `value := 4`, replaces it by `runtime.NumCPU()` when that is larger,
and renders it with `strconv.Itoa`. -/
def dsnMaxConns (env : Env) (cpu : Nat) : String :=
  if env "PGPOOLMAXCONNECTIONS" = "" then itoa (if 4 < cpu then cpu else 4)
  else env "PGPOOLMAXCONNECTIONS"

/-- Min-pool-size resolution: `PGPOOLMINCONNECTIONS`, defaulting to
`strconv.Itoa(1)`. -/
def dsnMinConns (env : Env) : String :=
  if env "PGPOOLMINCONNECTIONS" = "" then itoa 1 else env "PGPOOLMINCONNECTIONS"

/-- The key/value pairs `DSN()` adds to `url.Values`, in `query.Add` order,
per src/unnamed/part_002 (the connection.go revision that includes
`sslcertmode`).  The code also resolves `PGTZ` (default "UTC") into a local
`tz` but never adds it to the query, so it does not appear here. -/
def dsnPairs (env : Env) (cpu : Nat) : List QP :=
  [("user", env "PGUSER"),
   ("password", env "PGPASSWORD"),
   ("port", dsnPort env),
   ("connect_timeout", dsnTimeout env),
   ("application_name", env "PGAPPNAME"),
   ("pool_max_conns", dsnMaxConns env cpu),
   ("pool_min_conns", dsnMinConns env),
   ("sslmode", env "PGSSLMODE"),
   ("sslcertmode", env "PGSSLCERTMODE"),
   ("sslrootcert", env "PGSSLROOTCERT")]

/-- Same pairs per src/connection.go, which lacks the `sslcertmode` add. -/
def dsnPairsNoCert (env : Env) (cpu : Nat) : List QP :=
  [("user", env "PGUSER"),
   ("password", env "PGPASSWORD"),
   ("port", dsnPort env),
   ("connect_timeout", dsnTimeout env),
   ("application_name", env "PGAPPNAME"),
   ("pool_max_conns", dsnMaxConns env cpu),
   ("pool_min_conns", dsnMinConns env),
   ("sslmode", env "PGSSLMODE"),
   ("sslrootcert", env "PGSSLROOTCERT")]

/-- The deletion loop of `DSN()`: every key whose (single) value is empty
after `strings.TrimSpace` is removed with `query.Del`.  Iterating a Go map
while deleting the visited key visits every key once, so the loop keeps
exactly the pairs with non-blank values. -/
def pruneBlank (l : List QP) : List QP :=
  l.filter (fun p => !(goTrimSpace p.2 == ""))

/-- The query pairs that survive into `uri.RawQuery`, in the sorted order
`url.Values.Encode` serializes them. -/
def dsnQuery (env : Env) (cpu : Nat) : List QP :=
  sortPairs (pruneBlank (dsnPairs env cpu))

/-- `uri.RawQuery` as set by `DSN()`: `query.Encode()` of the pruned
values. -/
def dsnRawQuery (env : Env) (cpu : Nat) : List Char :=
  valuesEncode (pruneBlank (dsnPairs env cpu))

/-- The string `DSN()` returns (part_002 version): `uri.String()` of a URL
with scheme "postgresql", the resolved host, and the encoded query;
`URL.String()` writes `?` only when the raw query is nonempty and escapes
the host with `encodeHost`. -/
def DSN (env : Env) (cpu : Nat) : String :=
  String.mk (("postgresql://".data ++ hostEscape (dsnHost env)) ++
    (if dsnRawQuery env cpu = [] then [] else '?' :: dsnRawQuery env cpu))

/-- `uri.RawQuery` per the src/connection.go revision (no `sslcertmode`). -/
def dsnRawQueryNoCert (env : Env) (cpu : Nat) : List Char :=
  valuesEncode (pruneBlank (dsnPairsNoCert env cpu))

/-- The string `DSN()` returns per the src/connection.go revision. -/
def DSNNoCert (env : Env) (cpu : Nat) : String :=
  String.mk (("postgresql://".data ++ hostEscape (dsnHost env)) ++
    (if dsnRawQueryNoCert env cpu = [] then []
     else '?' :: dsnRawQueryNoCert env cpu))

/-- The query keys `DSN()` can emit (spec section 6), in `query.Add`
order. -/
def dsnKeys : List String :=
  ["user", "password", "port", "connect_timeout", "application_name",
   "pool_max_conns", "pool_min_conns", "sslmode", "sslcertmode", "sslrootcert"]

/-- The environment variables whose values flow into the output of
`DSN()`.  `PGTZ` is read by the code as well but is dead: its resolved
value is never added to the query. -/
def dsnEnvReads : List String :=
  ["PGHOST", "PGUSER", "PGPASSWORD", "PGPORT", "PGCONNECT_TIMEOUT",
   "PGAPPNAME", "PGSSLMODE", "PGSSLCERTMODE", "PGSSLROOTCERT",
   "PGPOOLMAXCONNECTIONS", "PGPOOLMINCONNECTIONS"]

/-- All environment variables consumed by `DSN()` (spec section 6),
including the dead `PGTZ`. -/
def pgEnvVars : List String := dsnEnvReads ++ ["PGTZ"]

/-- External pooling capability (the pgxpool collaborator), abstracted:
configurations, pools and leased connections are numbered.  `parse` models
`pgxpool.ParseConfig` (`none` = malformed DSN), `construct` models
`pgxpool.NewWithConfig` (`none` = construction failure), `acquire` models
`Pool.Acquire` (`none` = acquisition failure). -/
structure Capability where
  parse : String → Option Nat
  construct : Nat → Option Nat
  acquire : Nat → Option Nat

/-- Error taxonomy of `Connection` (spec section 7): configuration,
construction and acquisition failures. -/
inductive ConnError
  | configuration
  | construction
  | acquisition
deriving DecidableEq

/-- Sequential semantics of `Connection(ctx, uri)`: when the shared slot is
empty, parse the DSN and construct the pool (each failure is returned and
the slot stays empty); on success store the pool; finally acquire a lease
from the stored pool.  Returns the Go result (`*pgxpool.Conn, error` as an
`Except`) together with the new slot contents. -/
def Connection (cap : Capability) (slot : Option Nat) (uri : String) :
    Except ConnError Nat × Option Nat :=
  match slot with
  | none =>
    match cap.parse uri with
    | none => (Except.error ConnError.configuration, none)
    | some cfg =>
      match cap.construct cfg with
      | none => (Except.error ConnError.construction, none)
      | some p =>
        match cap.acquire p with
        | some c => (Except.ok c, some p)
        | none => (Except.error ConnError.acquisition, some p)
  | some p =>
    match cap.acquire p with
    | some c => (Except.ok c, some p)
    | none => (Except.error ConnError.acquisition, some p)

/-- Thread locations in the interleaved model of first-time `Connection`
calls with a valid DSN: `check` is about to execute `Pool.Load() == nil`;
`build` has observed an empty slot and will run `pgxpool.ParseConfig` +
`pgxpool.NewWithConfig` + `Pool.Store` (parse and construction succeed in
this scenario); `acq` is about to run `Pool.Load().Acquire(ctx)`;
`done p` holds a lease from pool `p`. -/
inductive TLoc
  | check
  | build
  | acq
  | done : Nat → TLoc
deriving DecidableEq

/-- Global state of the interleaved model: the shared atomic slot, the
number of pool constructions performed so far in the process, and every
thread's location. -/
structure RaceState where
  slot : Option Nat
  constructions : Nat
  threads : List TLoc
deriving DecidableEq

/-- One atomic step of thread `i`.  `Pool.Load` and `Pool.Store` are each
atomic (`sync/atomic.Pointer`), but nothing orders the load of one thread
before the store of another, so distinct threads may both observe the
empty slot.  Construction steps count constructions and store fresh pool
identities. -/
def raceStep (s : RaceState) (i : Nat) : RaceState :=
  match s.threads.get? i with
  | some TLoc.check =>
    ⟨s.slot, s.constructions,
      s.threads.set i (if s.slot = none then TLoc.build else TLoc.acq)⟩
  | some TLoc.build =>
    ⟨some (s.constructions + 1), s.constructions + 1, s.threads.set i TLoc.acq⟩
  | some TLoc.acq =>
    match s.slot with
    | some p => ⟨s.slot, s.constructions, s.threads.set i (TLoc.done p)⟩
    | none => s
  | _ => s

/-- Run a schedule (list of thread indices) from a state. -/
def raceRun (sched : List Nat) (s : RaceState) : RaceState :=
  sched.foldl raceStep s

/-- Initial state for `n` first-time callers: empty slot, no
constructions. -/
def raceInit (n : Nat) : RaceState := ⟨none, 0, List.replicate n TLoc.check⟩

/-- Outcome `tx.Rollback(ctx)` can report inside `Disconnect`: success,
`pgx.ErrTxClosed`, or any other error. -/
inductive RollbackResult
  | ok
  | errClosed
  | errOther
deriving DecidableEq

/-- Levels of the slog calls `Disconnect` makes. -/
inductive LogLevel
  | info
  | error
deriving DecidableEq

/-- Observable actions of `Disconnect`: structured log records and the
`connection.Release()` call. -/
inductive Ev
  | log : LogLevel → String → Ev
  | release : Ev
deriving DecidableEq

/-- Semantics of `Disconnect(ctx, connection, tx)` as its trace of
observable actions.  `tx` is `none` when the transaction handle is nil,
otherwise it carries the rollback outcome; `conn` says whether the
connection handle is non-nil.  The function returns nothing in Go, so
errors can surface only as log records. -/
def Disconnect (tx : Option RollbackResult) (conn : Bool) : List Ev :=
  (match tx with
   | none => []
   | some RollbackResult.errOther =>
     [Ev.log LogLevel.error "Error Rolling Back Transaction"]
   | some RollbackResult.errClosed =>
     [Ev.log LogLevel.info "Successfully Committed Database Transaction"]
   | some RollbackResult.ok =>
     [Ev.log LogLevel.info "Successfully Rolled Back Database Transaction"]) ++
  (if conn then [Ev.release] else [])

/-- The all-unset environment. -/
def envZero : Env := fun _ => ""

/-- Environment whose every recognized value is empty or whitespace-only,
with `PGPORT` (and the three other defaulted numeric variables) set to a
single space. -/
def envAllBlank : Env := fun k =>
  if k = "PGPORT" then " "
  else if k = "PGCONNECT_TIMEOUT" then " "
  else if k = "PGPOOLMAXCONNECTIONS" then " "
  else if k = "PGPOOLMINCONNECTIONS" then " " else ""

/-- Environment with `PGPORT` set to a single space and nothing else. -/
def envSpacePort : Env := fun k => if k = "PGPORT" then " " else ""

/-- Environment with only a whitespace-only `PGSSLMODE`. -/
def envSpaceSslmode : Env := fun k => if k = "PGSSLMODE" then " " else ""

/-- Environment setting only an unrecognized variable. -/
def envUnrelated : Env := fun k => if k = "PGDATABASE" then "ignored" else ""

/-- Environment setting only `PGTZ`. -/
def envTz : Env := fun k => if k = "PGTZ" then "America/New_York" else ""

/-- Capability in which exactly the DSN "postgresql://ok" parses (to
configuration 7), construction yields pool 3, and acquisition yields
lease 11. -/
def capW : Capability :=
  ⟨fun s => if s = "postgresql://ok" then some 7 else none,
   fun _ => some 3, fun _ => some 11⟩

theorem goTrimSpace_eq_empty_iff (s : String) :
    goTrimSpace s = "" ↔ goBlank s = true := by
  unfold goTrimSpace goBlank
  constructor
  · intro h
    have hdata : ((s.data.dropWhile goIsSpace).reverse.dropWhile goIsSpace) = [] := by
      have h2 := congrArg String.data h
      simpa using h2
    rw [List.dropWhile_eq_nil_iff] at hdata
    rw [List.all_eq_true]
    intro x hx
    have hx2 : x ∈ s.data.takeWhile goIsSpace ++ s.data.dropWhile goIsSpace := by
      rw [List.takeWhile_append_dropWhile]
      exact hx
    rcases List.mem_append.mp hx2 with h1 | h2
    · exact List.mem_takeWhile_imp h1
    · exact hdata x (List.mem_reverse.mpr h2)
  · intro h
    rw [List.all_eq_true] at h
    have h1 : s.data.dropWhile goIsSpace = [] :=
      List.dropWhile_eq_nil_iff.mpr (fun x hx => h x hx)
    rw [h1]
    rfl

theorem digitChar_not_space : ∀ d < 10, goIsSpace (digitChar d) = false := by decide

theorem natToDigitsAux_not_space :
    ∀ fuel n : Nat, ∀ c ∈ natToDigitsAux fuel n, goIsSpace c = false := by
  intro fuel
  induction fuel with
  | zero => intro n c hc; simp [natToDigitsAux] at hc
  | succ fuel ih =>
    intro n c hc
    rw [natToDigitsAux] at hc
    split at hc
    · rw [List.mem_singleton] at hc
      subst hc
      exact digitChar_not_space n (by omega)
    · rcases List.mem_append.mp hc with h1 | h2
      · exact ih (n / 10) c h1
      · rw [List.mem_singleton] at h2
        subst h2
        exact digitChar_not_space (n % 10) (Nat.mod_lt n (by omega))

theorem natToDigits_not_space : ∀ n : Nat, ∀ c ∈ natToDigits n, goIsSpace c = false :=
  fun n => natToDigitsAux_not_space (n + 1) n

theorem natToDigits_ne_nil (n : Nat) : natToDigits n ≠ [] := by
  unfold natToDigits
  rw [natToDigitsAux]
  split
  · simp
  · simp

/-- A decimal rendering is never blank: it is nonempty and contains no space. -/
theorem goBlank_itoa (n : Nat) : goBlank (itoa n) = false := by
  unfold goBlank itoa
  cases h : natToDigits n with
  | nil => exact absurd h (natToDigits_ne_nil n)
  | cons c cs =>
    have hc : goIsSpace c = false := by
      refine natToDigits_not_space n c ?_
      rw [h]
      exact List.mem_cons_self c cs
    show (c :: cs).all goIsSpace = false
    simp [hc]

theorem utf8EncodeCharNat_ne_nil (n : Nat) : utf8EncodeCharNat n ≠ [] := by
  unfold utf8EncodeCharNat
  split
  · simp
  · split
    · simp
    · split
      · simp
      · simp

theorem utf8Bytes_ne_nil (s : String) (h : s ≠ "") : utf8Bytes s ≠ [] := by
  unfold utf8Bytes
  cases hd : s.data with
  | nil =>
    exact absurd (String.ext hd) h
  | cons c cs =>
    simp only [hd, List.flatMap_cons]
    intro hcontra
    rcases List.append_eq_nil.mp hcontra with ⟨h1, _⟩
    exact utf8EncodeCharNat_ne_nil c.toNat h1

theorem utf8EncodeCharNat_lt_256 (n : Nat) (h : n < 1114112) :
    ∀ b ∈ utf8EncodeCharNat n, b < 256 := by
  unfold utf8EncodeCharNat
  split
  · intro b hb
    rw [List.mem_singleton] at hb
    omega
  · split
    · intro b hb
      have h64 : n / 64 < 32 := by omega
      have hm : n % 64 < 64 := Nat.mod_lt n (by omega)
      simp only [List.mem_cons, List.not_mem_nil, or_false] at hb
      rcases hb with h1 | h1 <;> omega
    · split
      · intro b hb
        have h4096 : n / 4096 < 16 := by omega
        have h64 : n / 64 % 64 < 64 := Nat.mod_lt _ (by omega)
        have hm : n % 64 < 64 := Nat.mod_lt n (by omega)
        simp only [List.mem_cons, List.not_mem_nil, or_false] at hb
        rcases hb with h1 | h1 | h1 <;> omega
      · intro b hb
        have h262144 : n / 262144 < 5 := by omega
        have h4096 : n / 4096 % 64 < 64 := Nat.mod_lt _ (by omega)
        have h64 : n / 64 % 64 < 64 := Nat.mod_lt _ (by omega)
        have hm : n % 64 < 64 := Nat.mod_lt n (by omega)
        simp only [List.mem_cons, List.not_mem_nil, or_false] at hb
        rcases hb with h1 | h1 | h1 | h1 <;> omega

theorem char_toNat_lt (c : Char) : c.toNat < 1114112 := by
  rcases c.valid with h | h
  · exact Nat.lt_trans h (by norm_num)
  · exact h.2

theorem utf8Bytes_lt_256 (s : String) : ∀ b ∈ utf8Bytes s, b < 256 := by
  intro b hb
  unfold utf8Bytes at hb
  rcases List.mem_flatMap.mp hb with ⟨c, _, hbc⟩
  exact utf8EncodeCharNat_lt_256 c.toNat (char_toNat_lt c) b hbc

theorem bytesLe_total (a b : List Nat) : bytesLe a b = true ∨ bytesLe b a = true := by
  induction a generalizing b with
  | nil => left; rfl
  | cons x xs ih =>
    cases b with
    | nil => right; rfl
    | cons y ys =>
      by_cases hxy : x < y
      · left; simp [bytesLe, hxy]
      · by_cases hyx : y < x
        · right; simp [bytesLe, hyx, hxy]
        · have hxy2 : ¬ y < x := hyx
          rcases ih ys with h | h
          · left; simp [bytesLe, hxy, hyx, h]
          · right; simp [bytesLe, hxy, hyx, h]

theorem bytesLe_trans (a b c : List Nat) (h1 : bytesLe a b = true)
    (h2 : bytesLe b c = true) : bytesLe a c = true := by
  induction a generalizing b c with
  | nil => rfl
  | cons x xs ih =>
    cases b with
    | nil => simp [bytesLe] at h1
    | cons y ys =>
      cases c with
      | nil => simp [bytesLe] at h2
      | cons z zs =>
        simp only [bytesLe] at h1 h2 ⊢
        by_cases hxy : x < y
        · by_cases hyz : y < z
          · simp [show x < z by omega]
          · by_cases hzy : z < y
            · simp [bytesLe, hyz, hzy] at h2
            · have hyez : y = z := by omega
              subst hyez
              simp [bytesLe, hxy]
        · by_cases hyx : y < x
          · simp [hxy, hyx] at h1
          · have hxey : x = y := by omega
            subst hxey
            simp only [lt_self_iff_false, if_false] at h1
            by_cases hxz : x < z
            · simp [hxz]
            · by_cases hzx : z < x
              · simp [bytesLe, hxz, hzx] at h2
              · have hxez : x = z := by omega
                subst hxez
                simp only [lt_self_iff_false, if_false] at h2
                simp only [lt_self_iff_false, if_false]
                exact ih ys zs h1 h2

theorem keyLe_total (s t : String) : keyLe s t = true ∨ keyLe t s = true :=
  bytesLe_total (utf8Bytes s) (utf8Bytes t)

theorem keyLe_trans (s t u : String) (h1 : keyLe s t = true) (h2 : keyLe t u = true) :
    keyLe s u = true :=
  bytesLe_trans (utf8Bytes s) (utf8Bytes t) (utf8Bytes u) h1 h2

theorem mem_insertPair (x p : QP) (l : List QP) :
    x ∈ insertPair p l ↔ x = p ∨ x ∈ l := by
  induction l with
  | nil => simp [insertPair]
  | cons q qs ih =>
    simp only [insertPair]
    split
    · simp
    · simp only [List.mem_cons, ih]
      tauto

theorem mem_sortPairs (x : QP) (l : List QP) : x ∈ sortPairs l ↔ x ∈ l := by
  induction l with
  | nil => simp [sortPairs]
  | cons p ps ih =>
    simp only [sortPairs, mem_insertPair, ih, List.mem_cons]

theorem pairwise_insertPair (p : QP) (l : List QP)
    (h : List.Pairwise (fun a b : QP => keyLe a.1 b.1 = true) l) :
    List.Pairwise (fun a b : QP => keyLe a.1 b.1 = true) (insertPair p l) := by
  induction l with
  | nil => simp [insertPair]
  | cons q qs ih =>
    rcases List.pairwise_cons.mp h with ⟨hq, hqs⟩
    simp only [insertPair]
    split
    · rename_i hle
      refine List.pairwise_cons.mpr ⟨?_, h⟩
      intro b hb
      rcases List.mem_cons.mp hb with hb1 | hb2
      · rw [hb1]; exact hle
      · exact keyLe_trans p.1 q.1 b.1 hle (hq b hb2)
    · rename_i hnle
      refine List.pairwise_cons.mpr ⟨?_, ih hqs⟩
      intro b hb
      rcases (mem_insertPair b p qs).mp hb with hb1 | hb2
      · rw [hb1]
        rcases keyLe_total p.1 q.1 with h1 | h1
        · exact absurd h1 hnle
        · exact h1
      · exact hq b hb2

theorem pairwise_sortPairs (l : List QP) :
    List.Pairwise (fun a b : QP => keyLe a.1 b.1 = true) (sortPairs l) := by
  induction l with
  | nil => simp [sortPairs]
  | cons p ps ih => exact pairwise_insertPair p (sortPairs ps) ih

theorem queryEscapeByte_no_sep : ∀ b < 256,
    ('&' ∉ queryEscapeByte b ∧ '=' ∉ queryEscapeByte b ∧ ';' ∉ queryEscapeByte b) := by
  decide

theorem unreserved_char_facts : ∀ b < 256, unreservedByte b = true →
    ((Char.ofNat b).toNat = b ∧ b < 128 ∧ Char.ofNat b ≠ '%' ∧ Char.ofNat b ≠ '+') := by
  decide

theorem hexVal_upperHexDigit : ∀ n < 16, hexVal (upperHexDigit n) = some n := by
  decide

theorem unescapeQ_cons_plain (c : Char) (rest : List Char) (h1 : ¬ (c = '%'))
    (h2 : ¬ (c = '+')) :
    unescapeQ (c :: rest) = match unescapeQ rest with
      | some bs => some (utf8EncodeCharNat c.toNat ++ bs)
      | none => none := by
  cases rest with
  | nil => simp [unescapeQ, h1, h2]
  | cons d ds =>
    cases ds with
    | nil => simp [unescapeQ, h1, h2]
    | cons e es => simp [unescapeQ, h1, h2]

theorem unescapeQ_cons_plus (rest : List Char) :
    unescapeQ ('+' :: rest) = match unescapeQ rest with
      | some bs => some (32 :: bs)
      | none => none := by
  cases rest with
  | nil => simp [unescapeQ]
  | cons d ds =>
    cases ds with
    | nil => simp [unescapeQ]
    | cons e es => simp [unescapeQ]

theorem unescapeQ_pct (h l : Char) (rest : List Char) :
    unescapeQ ('%' :: h :: l :: rest) =
      match hexVal h, hexVal l, unescapeQ rest with
      | some hv, some lv, some bs => some ((16 * hv + lv) :: bs)
      | _, _, _ => none := by
  simp [unescapeQ]

theorem unescapeQ_append_escape (b : Nat) (hb : b < 256) (rest : List Char) :
    unescapeQ (queryEscapeByte b ++ rest) = (unescapeQ rest).map (fun bs => b :: bs) := by
  unfold queryEscapeByte
  split
  · rename_i hunres
    obtain ⟨htn, h128, hpct, hplus⟩ := unreserved_char_facts b hb hunres
    rw [List.singleton_append, unescapeQ_cons_plain (Char.ofNat b) rest hpct hplus]
    have henc : utf8EncodeCharNat (Char.ofNat b).toNat = [b] := by
      rw [htn]
      unfold utf8EncodeCharNat
      rw [if_pos h128]
    rw [henc]
    cases unescapeQ rest <;> simp
  · split
    · rename_i hne32 h32
      have hb32 : b = 32 := beq_iff_eq.mp h32
      subst hb32
      rw [List.singleton_append, unescapeQ_cons_plus rest]
      cases unescapeQ rest <;> simp
    · rw [show pctEncode b ++ rest =
        '%' :: upperHexDigit (b / 16) :: upperHexDigit (b % 16) :: rest from rfl]
      rw [unescapeQ_pct]
      rw [hexVal_upperHexDigit (b / 16) (by omega), hexVal_upperHexDigit (b % 16) (by omega)]
      cases h : unescapeQ rest with
      | none => rfl
      | some bs => simp [show 16 * (b / 16) + b % 16 = b from by omega]

theorem unescapeQ_flatMap_escape (bs : List Nat) (h : ∀ b ∈ bs, b < 256) :
    unescapeQ (bs.flatMap queryEscapeByte) = some bs := by
  induction bs with
  | nil => rfl
  | cons b rest ih =>
    simp only [List.flatMap_cons]
    rw [unescapeQ_append_escape b (h b (List.mem_cons_self b rest)) _]
    rw [ih (fun x hx => h x (List.mem_cons_of_mem b hx))]
    rfl

theorem unescapeQ_queryEscape (s : String) :
    unescapeQ (queryEscape s) = some (utf8Bytes s) :=
  unescapeQ_flatMap_escape (utf8Bytes s) (utf8Bytes_lt_256 s)

theorem queryEscape_no_sep (s : String) :
    '&' ∉ queryEscape s ∧ '=' ∉ queryEscape s ∧ ';' ∉ queryEscape s := by
  refine ⟨?_, ?_, ?_⟩ <;>
  · intro hmem
    rcases List.mem_flatMap.mp hmem with ⟨b, hb, hcb⟩
    have hlt := utf8Bytes_lt_256 s b hb
    have := queryEscapeByte_no_sep b hlt
    tauto

theorem cutEq_append (k v : List Char) (hk : '=' ∉ k) :
    cutEq (k ++ '=' :: v) = (k, v) := by
  induction k with
  | nil => simp [cutEq]
  | cons c cs ih =>
    have hc : ¬ (c = '=') := fun hcc => hk (hcc ▸ List.mem_cons_self c cs)
    have hcs : '=' ∉ cs := fun hmem => hk (List.mem_cons_of_mem c hmem)
    simp only [List.cons_append, cutEq, if_neg hc, List.append_eq, ih hcs]

theorem splitAmp_ne_nil (l : List Char) : splitAmp l ≠ [] := by
  cases l with
  | nil => simp [splitAmp]
  | cons c rest =>
    cases h : splitAmp rest with
    | nil => simp [splitAmp, h]
    | cons p ps =>
      simp only [splitAmp, h]
      split <;> simp

theorem splitAmp_no_amp (l : List Char) (h : '&' ∉ l) : splitAmp l = [l] := by
  induction l with
  | nil => rfl
  | cons c rest ih =>
    have hc : ¬ (c = '&') := fun hcc => h (hcc ▸ List.mem_cons_self c rest)
    have hrest : '&' ∉ rest := fun hmem => h (List.mem_cons_of_mem c hmem)
    simp only [splitAmp, ih hrest, if_neg hc]

theorem splitAmp_amp_append (x t : List Char) (hx : '&' ∉ x) :
    splitAmp (x ++ '&' :: t) = x :: splitAmp t := by
  induction x with
  | nil =>
    simp only [List.nil_append, splitAmp]
    cases h : splitAmp t with
    | nil => exact absurd h (splitAmp_ne_nil t)
    | cons p ps => simp
  | cons c cs ih =>
    have hc : ¬ (c = '&') := fun hcc => hx (hcc ▸ List.mem_cons_self c cs)
    have hcs : '&' ∉ cs := fun hmem => hx (List.mem_cons_of_mem c hmem)
    simp only [List.cons_append, splitAmp, List.append_eq, ih hcs, if_neg hc]

theorem splitAmp_joinAmp (pieces : List (List Char)) (hne : pieces ≠ [])
    (h : ∀ p ∈ pieces, '&' ∉ p) : splitAmp (joinAmp pieces) = pieces := by
  induction pieces with
  | nil => contradiction
  | cons x rest ih =>
    cases rest with
    | nil =>
      simp only [joinAmp]
      exact splitAmp_no_amp x (h x (List.mem_cons_self x []))
    | cons y ys =>
      simp only [joinAmp]
      rw [splitAmp_amp_append x _ (h x (List.mem_cons_self x (y :: ys)))]
      rw [ih (by simp) (fun p hp => h p (List.mem_cons_of_mem x hp))]

theorem encodePair_no_amp (p : QP) : '&' ∉ encodePair p := by
  unfold encodePair
  intro hmem
  rcases List.mem_append.mp hmem with h1 | h2
  · exact (queryEscape_no_sep p.1).1 h1
  · rcases List.mem_cons.mp h2 with h3 | h4
    · exact absurd h3 (by decide)
    · exact (queryEscape_no_sep p.2).1 h4

theorem encodePair_no_semi (p : QP) : (encodePair p).contains ';' = false := by
  rw [Bool.eq_false_iff]
  intro hcon
  have hmem : ';' ∈ encodePair p := by
    rw [List.contains_eq_any_beq] at hcon
    rcases List.any_eq_true.mp hcon with ⟨c, hc, hbeq⟩
    rw [show c = ';' from (beq_iff_eq.mp (BEq.symm hbeq))] at hc
    exact hc
  unfold encodePair at hmem
  rcases List.mem_append.mp hmem with h1 | h2
  · exact (queryEscape_no_sep p.1).2.2 h1
  · rcases List.mem_cons.mp h2 with h3 | h4
    · exact absurd h3 (by decide)
    · exact (queryEscape_no_sep p.2).2.2 h4

theorem encodePair_not_empty (p : QP) : (encodePair p).isEmpty = false := by
  unfold encodePair
  cases h : queryEscape p.1 <;> simp

theorem parseSegment_encodePair (p : QP) :
    parseSegment (encodePair p) = some (utf8Bytes p.1, utf8Bytes p.2) := by
  unfold parseSegment encodePair
  rw [cutEq_append _ _ (queryEscape_no_sep p.1).2.1]
  rw [show ((queryEscape p.1, queryEscape p.2) : List Char × List Char).1 = queryEscape p.1 from rfl]
  rw [unescapeQ_queryEscape p.1, unescapeQ_queryEscape p.2]

/-- Round trip: parsing the serialization of a pair list recovers exactly
the pairs, as byte strings, in order. -/
theorem parseQuery_joinAmp_encode (l : List QP) :
    parseQuery (joinAmp (l.map encodePair)) =
      l.map (fun p => (utf8Bytes p.1, utf8Bytes p.2)) := by
  cases l with
  | nil => rfl
  | cons p ps =>
    unfold parseQuery
    rw [splitAmp_joinAmp _ (by simp) ?hamp]
    case hamp =>
      intro x hx
      rcases List.mem_map.mp hx with ⟨q, _, hq⟩
      rw [← hq]
      exact encodePair_no_amp q
    rw [List.filterMap_map]
    have hfun : ∀ q : QP,
        ((fun seg => if seg.isEmpty || seg.contains ';' then none else parseSegment seg) ∘
          encodePair) q = some (utf8Bytes q.1, utf8Bytes q.2) := by
      intro q
      simp only [Function.comp_apply, encodePair_not_empty, encodePair_no_semi,
        Bool.or_self, if_neg (by simp : ¬ (false || false) = true)]
      exact parseSegment_encodePair q
    have : ∀ m : List QP,
        m.filterMap ((fun seg => if seg.isEmpty || seg.contains ';' then none
          else parseSegment seg) ∘ encodePair) =
          m.map (fun q => (utf8Bytes q.1, utf8Bytes q.2)) := by
      intro m
      induction m with
      | nil => rfl
      | cons a as iha => simp only [List.filterMap_cons, hfun a, List.map_cons, iha]
    exact this (p :: ps)

theorem dsnPairs_keys (env : Env) (cpu : Nat) :
    (dsnPairs env cpu).map Prod.fst = dsnKeys := rfl

theorem dsnKeys_nodup : dsnKeys.Nodup := by decide

theorem dsnKeys_utf8_inj :
    ∀ a ∈ dsnKeys, ∀ b ∈ dsnKeys, utf8Bytes a = utf8Bytes b → a = b := by decide

theorem dsn_parse_eq (env : Env) (cpu : Nat) :
    parseQuery (dsnRawQuery env cpu) =
      (dsnQuery env cpu).map (fun p => (utf8Bytes p.1, utf8Bytes p.2)) :=
  parseQuery_joinAmp_encode (dsnQuery env cpu)

theorem mem_dsnQuery_iff (env : Env) (cpu : Nat) (p : QP) :
    p ∈ dsnQuery env cpu ↔ p ∈ dsnPairs env cpu ∧ goBlank p.2 = false := by
  unfold dsnQuery pruneBlank
  rw [mem_sortPairs, List.mem_filter]
  constructor
  · rintro ⟨h1, h2⟩
    refine ⟨h1, ?_⟩
    rw [Bool.not_eq_eq_eq_not, Bool.not_true, beq_eq_false_iff_ne, ne_eq] at h2
    rw [Bool.eq_false_iff]
    intro hblank
    exact h2 ((goTrimSpace_eq_empty_iff p.2).mpr hblank)
  · rintro ⟨h1, h2⟩
    refine ⟨h1, ?_⟩
    rw [Bool.not_eq_eq_eq_not, Bool.not_true, beq_eq_false_iff_ne, ne_eq]
    intro htrim
    rw [(goTrimSpace_eq_empty_iff p.2).mp htrim] at h2
    exact absurd h2 (by simp)

theorem key_mem_dsnQuery (env : Env) (cpu : Nat) (p : QP) (hp : p ∈ dsnPairs env cpu) :
    p.1 ∈ (dsnQuery env cpu).map Prod.fst ↔ goBlank p.2 = false := by
  constructor
  · intro hmem
    rcases List.mem_map.mp hmem with ⟨q, hq, hq1⟩
    rcases (mem_dsnQuery_iff env cpu q).mp hq with ⟨hqpairs, hqblank⟩
    have hnodup : ((dsnPairs env cpu).map Prod.fst).Nodup := by
      rw [dsnPairs_keys]
      exact dsnKeys_nodup
    have hqp : q = p := List.inj_on_of_nodup_map hnodup hqpairs hp hq1
    rw [← hqp]
    exact hqblank
  · intro hblank
    exact List.mem_map_of_mem Prod.fst ((mem_dsnQuery_iff env cpu p).mpr ⟨hp, hblank⟩)

/-- A non-blank resolved pair appears in the parsed output with exactly its
value, and any parsed pair carrying its key carries that value. -/
theorem dsn_value_eq (env : Env) (cpu : Nat) (p : QP) (hp : p ∈ dsnPairs env cpu)
    (hb : goBlank p.2 = false) :
    (utf8Bytes p.1, utf8Bytes p.2) ∈ parseQuery (dsnRawQuery env cpu) ∧
      ∀ q ∈ parseQuery (dsnRawQuery env cpu),
        q.1 = utf8Bytes p.1 → q.2 = utf8Bytes p.2 := by
  rw [dsn_parse_eq]
  constructor
  · exact List.mem_map_of_mem _ ((mem_dsnQuery_iff env cpu p).mpr ⟨hp, hb⟩)
  · intro q hq hq1
    rcases List.mem_map.mp hq with ⟨r, hr, hrq⟩
    rcases (mem_dsnQuery_iff env cpu r).mp hr with ⟨hrpairs, _⟩
    have hr1 : r.1 ∈ dsnKeys := by
      rw [← dsnPairs_keys env cpu]
      exact List.mem_map_of_mem Prod.fst hrpairs
    have hp1 : p.1 ∈ dsnKeys := by
      rw [← dsnPairs_keys env cpu]
      exact List.mem_map_of_mem Prod.fst hp
    have hq1r : utf8Bytes r.1 = utf8Bytes p.1 := by
      rw [← hq1, ← hrq]
    have hkeyeq : r.1 = p.1 := dsnKeys_utf8_inj r.1 hr1 p.1 hp1 hq1r
    have hnodup : ((dsnPairs env cpu).map Prod.fst).Nodup := by
      rw [dsnPairs_keys]
      exact dsnKeys_nodup
    have hrp : r = p := List.inj_on_of_nodup_map hnodup hrpairs hp hkeyeq
    rw [← hrq, hrp]

/-- A blank resolved pair's key is absent from the parsed output. -/
theorem key_not_mem_parse (env : Env) (cpu : Nat) (p : QP) (hp : p ∈ dsnPairs env cpu)
    (hb : goBlank p.2 = true) :
    utf8Bytes p.1 ∉ (parseQuery (dsnRawQuery env cpu)).map Prod.fst := by
  rw [dsn_parse_eq]
  intro hmem
  rcases List.mem_map.mp hmem with ⟨q, hq, hq1⟩
  rcases List.mem_map.mp hq with ⟨r, hr, hrq⟩
  rcases (mem_dsnQuery_iff env cpu r).mp hr with ⟨hrpairs, hrblank⟩
  have hr1 : r.1 ∈ dsnKeys := by
    rw [← dsnPairs_keys env cpu]
    exact List.mem_map_of_mem Prod.fst hrpairs
  have hp1 : p.1 ∈ dsnKeys := by
    rw [← dsnPairs_keys env cpu]
    exact List.mem_map_of_mem Prod.fst hp
  have hq1r : utf8Bytes r.1 = utf8Bytes p.1 := by
    rw [← hq1, ← hrq]
  have hkeyeq : r.1 = p.1 := dsnKeys_utf8_inj r.1 hr1 p.1 hp1 hq1r
  have hnodup : ((dsnPairs env cpu).map Prod.fst).Nodup := by
    rw [dsnPairs_keys]
    exact dsnKeys_nodup
  have hrp : r = p := List.inj_on_of_nodup_map hnodup hrpairs hp hkeyeq
  rw [hrp] at hrblank
  rw [hrblank] at hb
  exact absurd hb (by simp)

theorem dsnHost_congr (env1 env2 : Env) (h : env1 "PGHOST" = env2 "PGHOST") :
    dsnHost env1 = dsnHost env2 := by
  unfold dsnHost
  rw [h]

theorem dsnPairs_congr (env1 env2 : Env) (cpu : Nat)
    (h : ∀ v ∈ dsnEnvReads, env1 v = env2 v) :
    dsnPairs env1 cpu = dsnPairs env2 cpu := by
  unfold dsnPairs dsnPort dsnTimeout dsnMaxConns dsnMinConns
  rw [h "PGUSER" (by decide), h "PGPASSWORD" (by decide), h "PGPORT" (by decide),
    h "PGCONNECT_TIMEOUT" (by decide), h "PGAPPNAME" (by decide),
    h "PGSSLMODE" (by decide), h "PGSSLCERTMODE" (by decide),
    h "PGSSLROOTCERT" (by decide), h "PGPOOLMAXCONNECTIONS" (by decide),
    h "PGPOOLMINCONNECTIONS" (by decide)]

/-- `DSN()` depends only on the (live) recognized environment variables. -/
theorem DSN_env_agree (env1 env2 : Env) (cpu : Nat)
    (h : ∀ v ∈ dsnEnvReads, env1 v = env2 v) :
    DSN env1 cpu = DSN env2 cpu := by
  unfold DSN dsnRawQuery
  rw [dsnHost_congr env1 env2 (h "PGHOST" (by decide)), dsnPairs_congr env1 env2 cpu h]

/-- Keys of the emitted query are always among the ten documented keys. -/
theorem dsnQuery_keys_sub (env : Env) (cpu : Nat) :
    ∀ k ∈ (dsnQuery env cpu).map Prod.fst, k ∈ dsnKeys := by
  intro k hk
  rcases List.mem_map.mp hk with ⟨q, hq, hq1⟩
  rcases (mem_dsnQuery_iff env cpu q).mp hq with ⟨hqpairs, _⟩
  rw [← hq1, ← dsnPairs_keys env cpu]
  exact List.mem_map_of_mem Prod.fst hqpairs

/-- C1: the claim states that concurrent first-time callers of
`Connection` with a valid DSN perform exactly one pool construction and
that no two pool instances are ever constructed.  The code guards
construction with `if Pool.Load() == nil { ...; Pool.Store(...) }`, so in
the schedule where both of two threads execute the load before either
stores, both observe the empty slot and both construct: two constructions
are performed (the second store overwrites the first pool), even though
both callers do finish holding leases.  This contradicts the claim and the
spec's explicit requirement of an atomically-checked-and-set slot. -/
theorem c1_double_construction :
    (raceRun [0, 1, 0, 1, 0, 1] (raceInit 2)).constructions = 2 ∧
    (raceRun [0, 1, 0, 1, 0, 1] (raceInit 2)).threads =
      [TLoc.done 2, TLoc.done 2] ∧
    (raceRun [0, 0, 0, 1, 1, 1] (raceInit 2)).constructions = 1 := by
  refine ⟨by decide, by decide, by decide⟩

/-- C2: with an empty shared slot and a malformed DSN, `Connection`
returns no connection and a configuration error and leaves the slot empty;
a subsequent call against the same empty slot with a DSN that parses,
constructs and acquires successfully returns a lease and stores the
pool. -/
theorem c2_config_error_leaves_slot_empty (cap : Capability) (uri : String)
    (hbad : cap.parse uri = none) :
    Connection cap none uri = (Except.error ConnError.configuration, none) ∧
    (∀ uri2 cfg p c, cap.parse uri2 = some cfg → cap.construct cfg = some p →
      cap.acquire p = some c →
      Connection cap none uri2 = (Except.ok c, some p)) := by
  constructor
  · simp [Connection, hbad]
  · intro uri2 cfg p c h1 h2 h3
    simp [Connection, h1, h2, h3]

/-- C2 witness at a concrete capability and DSNs. -/
theorem c2_witness :
    Connection capW none ":" = (Except.error ConnError.configuration, none) ∧
    Connection capW none "postgresql://ok" = (Except.ok 11, some 3) :=
  ⟨(c2_config_error_leaves_slot_empty capW ":" (by decide)).1,
   (c2_config_error_leaves_slot_empty capW ":" (by decide)).2
     "postgresql://ok" 7 3 11 (by decide) rfl rfl⟩

/-- C3: every parameter in the parsed output of `DSN()` has a nonempty
value, and the key of any recognized pair whose resolved value is blank
(empty or whitespace-only) is absent from the parsed output. -/
theorem c3_blank_params_absent (env : Env) (cpu : Nat) :
    (∀ q ∈ parseQuery (dsnRawQuery env cpu), q.2 ≠ []) ∧
    (∀ p ∈ dsnPairs env cpu, goBlank p.2 = true →
      utf8Bytes p.1 ∉ (parseQuery (dsnRawQuery env cpu)).map Prod.fst) := by
  constructor
  · intro q hq
    rw [dsn_parse_eq] at hq
    rcases List.mem_map.mp hq with ⟨r, hr, hrq⟩
    rcases (mem_dsnQuery_iff env cpu r).mp hr with ⟨_, hrblank⟩
    rw [← hrq]
    have hne : r.2 ≠ "" := by
      intro hcontra
      rw [hcontra] at hrblank
      exact absurd hrblank (by decide)
    exact utf8Bytes_ne_nil r.2 hne
  · intro p hp hb
    exact key_not_mem_parse env cpu p hp hb

/-- C3 witness: a whitespace-only `PGSSLMODE` leaves no sslmode key in the
parsed output. -/
theorem c3_witness :
    utf8Bytes "sslmode" ∉
      (parseQuery (dsnRawQuery envSpaceSslmode 1)).map Prod.fst :=
  (c3_blank_params_absent envSpaceSslmode 1).2 ("sslmode", " ")
    (by decide) (by decide)

/-- C4 counterexample: in `envAllBlank` every resolved value is empty or
whitespace-only; `port` resolves to " ", which is non-empty, yet the
output is exactly "postgresql://localhost" — it contains no `?` and no
query, so it is not of the claimed `postgresql://<host>?<params>` form and
the non-empty-valued key `port` does not appear. -/
theorem c4_counterexample :
    DSN envAllBlank 1 = "postgresql://localhost" ∧
    dsnPort envAllBlank = " " ∧
    "port" ∉ (dsnQuery envAllBlank 1).map Prod.fst ∧
    (∀ c ∈ (DSN envAllBlank 1).data, c ≠ '?') := by
  refine ⟨by decide, by decide, by decide, by decide⟩

/-- C4 (amended): the returned string is "postgresql://" plus the escaped
host, followed by `?` and the url-encoded query exactly when some resolved
value is non-blank (otherwise there is no `?` at all); the emitted keys
are among the ten documented keys; and a documented key appears exactly
when its resolved value is non-blank (whitespace-only values are omitted,
not only empty ones). -/
theorem c4_amended (env : Env) (cpu : Nat) :
    (DSN env cpu).data = ("postgresql://".data ++ hostEscape (dsnHost env)) ++
      (if dsnRawQuery env cpu = [] then [] else '?' :: dsnRawQuery env cpu) ∧
    (∀ k ∈ (dsnQuery env cpu).map Prod.fst, k ∈ dsnKeys) ∧
    (∀ p ∈ dsnPairs env cpu,
      (p.1 ∈ (dsnQuery env cpu).map Prod.fst ↔ goBlank p.2 = false)) := by
  refine ⟨rfl, dsnQuery_keys_sub env cpu, ?_⟩
  exact fun p hp => key_mem_dsnQuery env cpu p hp

/-- C4 witness at the all-unset environment. -/
theorem c4_witness : "port" ∈ dsnKeys :=
  (c4_amended envZero 1).2.1 "port" (by decide)

/-- C5 counterexample: `PGPORT = " "` is non-empty, so the claim demands a
`port` parameter equal to " " verbatim; instead the code omits the `port`
key entirely (the full output is shown, with no port parameter). -/
theorem c5_counterexample :
    envSpacePort "PGPORT" = " " ∧
    utf8Bytes "port" ∉ (parseQuery (dsnRawQuery envSpacePort 1)).map Prod.fst ∧
    DSN envSpacePort 1 =
      "postgresql://localhost?connect_timeout=10&pool_max_conns=4&pool_min_conns=1" := by
  refine ⟨rfl, by decide, by decide⟩

/-- C5 (amended): empty `PGPORT` yields a `port` parameter "5432";
a `PGPORT` with any non-whitespace content is passed through verbatim;
a non-empty but whitespace-only `PGPORT` makes the `port` key disappear
from the output. -/
theorem c5_amended (env : Env) (cpu : Nat) :
    (env "PGPORT" = "" →
      (utf8Bytes "port", utf8Bytes "5432") ∈ parseQuery (dsnRawQuery env cpu) ∧
      ∀ q ∈ parseQuery (dsnRawQuery env cpu),
        q.1 = utf8Bytes "port" → q.2 = utf8Bytes "5432") ∧
    (goBlank (env "PGPORT") = false →
      (utf8Bytes "port", utf8Bytes (env "PGPORT")) ∈
        parseQuery (dsnRawQuery env cpu) ∧
      ∀ q ∈ parseQuery (dsnRawQuery env cpu),
        q.1 = utf8Bytes "port" → q.2 = utf8Bytes (env "PGPORT")) ∧
    (env "PGPORT" ≠ "" → goBlank (env "PGPORT") = true →
      utf8Bytes "port" ∉ (parseQuery (dsnRawQuery env cpu)).map Prod.fst) := by
  have hmem : ("port", dsnPort env) ∈ dsnPairs env cpu := by
    simp [dsnPairs]
  refine ⟨?_, ?_, ?_⟩
  · intro hempty
    have hport : dsnPort env = "5432" := by
      unfold dsnPort
      rw [if_pos hempty]
    have hmem2 : ("port", "5432") ∈ dsnPairs env cpu := by
      rw [← hport]
      exact hmem
    exact dsn_value_eq env cpu ("port", "5432") hmem2 (by decide)
  · intro hnb
    have hport : dsnPort env = env "PGPORT" := by
      unfold dsnPort
      split
      · rename_i h0
        rw [h0] at hnb
        exact absurd hnb (by decide)
      · rfl
    have hmem2 : ("port", env "PGPORT") ∈ dsnPairs env cpu := by
      rw [← hport]
      exact hmem
    exact dsn_value_eq env cpu ("port", env "PGPORT") hmem2 hnb
  · intro hne hbl
    have hport : dsnPort env = env "PGPORT" := by
      unfold dsnPort
      rw [if_neg hne]
    have hmem2 : ("port", env "PGPORT") ∈ dsnPairs env cpu := by
      rw [← hport]
      exact hmem
    exact key_not_mem_parse env cpu ("port", env "PGPORT") hmem2 hbl

/-- C5 witness at the all-unset environment: the defaulted port. -/
theorem c5_witness :
    (utf8Bytes "port", utf8Bytes "5432") ∈ parseQuery (dsnRawQuery envZero 1) :=
  ((c5_amended envZero 1).1 rfl).1

/-- C6: when `PGPOOLMAXCONNECTIONS` is absent, the `pool_max_conns`
parameter of the output equals the decimal rendering of max(4, CPU count),
and any parsed pair with that key carries exactly that value. -/
theorem c6_pool_max_default (env : Env) (cpu : Nat)
    (h : env "PGPOOLMAXCONNECTIONS" = "") :
    (utf8Bytes "pool_max_conns", utf8Bytes (itoa (max 4 cpu))) ∈
      parseQuery (dsnRawQuery env cpu) ∧
    ∀ q ∈ parseQuery (dsnRawQuery env cpu),
      q.1 = utf8Bytes "pool_max_conns" → q.2 = utf8Bytes (itoa (max 4 cpu)) := by
  have hval : dsnMaxConns env cpu = itoa (max 4 cpu) := by
    unfold dsnMaxConns
    rw [if_pos h]
    congr 1
    rcases Nat.lt_or_ge 4 cpu with h1 | h1
    · rw [if_pos h1, Nat.max_eq_right (le_of_lt h1)]
    · rw [if_neg (by omega), Nat.max_eq_left h1]
  have hmem : ("pool_max_conns", itoa (max 4 cpu)) ∈ dsnPairs env cpu := by
    rw [← hval]
    simp [dsnPairs]
  exact dsn_value_eq env cpu ("pool_max_conns", itoa (max 4 cpu)) hmem
    (goBlank_itoa (max 4 cpu))

/-- C6 witness on a 6-CPU host with nothing set. -/
theorem c6_witness :
    (utf8Bytes "pool_max_conns", utf8Bytes (itoa (max 4 6))) ∈
      parseQuery (dsnRawQuery envZero 6) :=
  (c6_pool_max_default envZero 6 rfl).1

/-- C7: when rollback reports `pgx.ErrTxClosed`, `Disconnect` logs exactly
one informational record (no error record) and, when the connection handle
is non-nil, still releases it afterwards; in general the whole transaction
step precedes the release. -/
theorem c7_rollback_closed_logs_info :
    (∀ conn : Bool, Disconnect (some RollbackResult.errClosed) conn =
      Ev.log LogLevel.info "Successfully Committed Database Transaction" ::
        (if conn then [Ev.release] else [])) ∧
    (∀ tx : Option RollbackResult,
      Disconnect tx true = Disconnect tx false ++ [Ev.release]) := by
  constructor
  · intro conn
    cases conn <;> rfl
  · intro tx
    rcases tx with _ | r
    · rfl
    · cases r <;> rfl

/-- C8: `Disconnect` with nil transaction and nil connection does nothing,
it releases the connection exactly when one is present whatever the
rollback outcome, and a failing rollback surfaces only as an error log
record while the release still happens — the caller never receives an
error (the Go function has no return value). -/
theorem c8_release_never_fails :
    Disconnect none false = [] ∧
    (∀ (tx : Option RollbackResult) (conn : Bool),
      (Ev.release ∈ Disconnect tx conn) ↔ conn = true) ∧
    (∀ conn : Bool, Disconnect (some RollbackResult.errOther) conn =
      Ev.log LogLevel.error "Error Rolling Back Transaction" ::
        (if conn then [Ev.release] else [])) := by
  refine ⟨rfl, ?_, ?_⟩
  · intro tx conn
    rcases tx with _ | r
    · cases conn <;> decide
    · cases r <;> cases conn <;> decide
  · intro conn
    cases conn <;> rfl

/-- C9: `DSN()` is deterministic in the recognized environment variables
and the CPU count — any two environments agreeing on all twelve consumed
variables produce the identical string — and the serialized query keys are
in sorted (byte-wise nondecreasing) order. -/
theorem c9_deterministic_sorted :
    (∀ env1 env2 : Env, ∀ cpu : Nat, (∀ v ∈ pgEnvVars, env1 v = env2 v) →
      DSN env1 cpu = DSN env2 cpu) ∧
    (∀ env : Env, ∀ cpu : Nat,
      List.Pairwise (fun a b => keyLe a b = true)
        ((dsnQuery env cpu).map Prod.fst)) := by
  constructor
  · intro env1 env2 cpu h
    refine DSN_env_agree env1 env2 cpu ?_
    intro v hv
    exact h v (List.mem_append_left _ hv)
  · intro env cpu
    rw [List.pairwise_map]
    exact pairwise_sortPairs (pruneBlank (dsnPairs env cpu))

/-- C9 witness: an unrecognized variable does not change the output. -/
theorem c9_witness : DSN envUnrelated 3 = DSN envZero 3 :=
  c9_deterministic_sorted.1 envUnrelated envZero 3 (by decide)

/-- C10: `PGTZ` has no effect on `DSN()`: any two environments differing
only in `PGTZ` produce the identical string, and every emitted query key
is one of the ten documented keys, none of which is timezone-related. -/
theorem c10_pgtz_dead (env1 env2 : Env) (cpu : Nat)
    (h : ∀ v : String, v ≠ "PGTZ" → env1 v = env2 v) :
    DSN env1 cpu = DSN env2 cpu ∧
    (∀ k ∈ (dsnQuery env1 cpu).map Prod.fst, k ∈ dsnKeys) := by
  constructor
  · refine DSN_env_agree env1 env2 cpu ?_
    intro v hv
    refine h v ?_
    intro hcontra
    rw [hcontra] at hv
    exact absurd hv (by decide)
  · exact dsnQuery_keys_sub env1 cpu

/-- C10 witness: setting `PGTZ` alone leaves the output unchanged. -/
theorem c10_witness : DSN envTz 2 = DSN envZero 2 :=
  (c10_pgtz_dead envTz envZero 2 (fun _v hv => if_neg hv)).1

end Pg
